import Mathlib

/-!
Verification of the impact-analysis core of the syncrup server.

The development shallow-embeds `src/services/ImpactAnalyzer.ts` and the
retry loop of `src/services/AIService.ts`.  Pure computations (path
normalisation, node lookup, the reverse-dependency BFS, deduplication,
the severity table) are translated directly.  Host-environment calls
(the generative-model HTTP call, `JSON.parse`, `fs` reads and the wall
clock) are modelled as an explicit environment record of oracle
functions, and JavaScript control flow around them (try/catch, `||`
defaulting, truthiness tests) is translated faithfully.

The BFS `while` loop is embedded with an explicit iteration budget
("fuel"); the theorem `bfs_terminates_and_visits_once` proves that a
budget of `|edges| + 1` always suffices, i.e. that the source loop
terminates on every finite graph.
-/

namespace Syncrup

/-- Severity levels of `ImpactResult.severity`
(the TS union `'LOW' | 'MEDIUM' | 'HIGH' | 'CRITICAL'`). -/
inductive Severity where
  | LOW
  | MEDIUM
  | HIGH
  | CRITICAL
deriving Repr, DecidableEq

/-- A graph node as used by `ImpactAnalyzer` (`GraphService.GraphNode`):
only the `id` and `type` fields are consulted. -/
structure GraphNode where
  id : String
  type : String
deriving Repr, DecidableEq

/-- A graph edge (`GraphService.GraphEdge`): `source`, `target`, `type`. -/
structure GraphEdge where
  source : String
  target : String
  type : String
deriving Repr, DecidableEq

/-- The project dependency graph snapshot returned by
`GraphService.getGraph()`. -/
structure Graph where
  nodes : List GraphNode
  edges : List GraphEdge
deriving Repr, DecidableEq

/-- One element of `ImpactResult.affectedFiles`:
`{ repoId, filePath, reason }`. -/
structure AffectedFile where
  repoId : String
  filePath : String
  reason : String
deriving Repr, DecidableEq

/-- The `ImpactResult` interface of `ImpactAnalyzer.ts`. -/
structure ImpactResult where
  projectId : String
  changedFile : String
  changedRepo : String
  affectedFiles : List AffectedFile
  isBreaking : Bool
  severity : Severity
  explanation : String
  timestamp : String
deriving Repr, DecidableEq

/-- `s.replace(/c/g, d)` for a single character: replace every
occurrence of `c` by `d`. -/
def replaceChar (c d : Char) (s : String) : String :=
  String.mk (s.toList.map (fun x => if x = c then d else x))

/-- JavaScript `String.prototype.split` with a single-character
separator, on character lists. -/
def splitChar (c : Char) : List Char → List (List Char)
  | [] => [[]]
  | x :: xs =>
    let r := splitChar c xs
    if x = c then [] :: r
    else
      match r with
      | [] => [[x]]
      | y :: ys => (x :: y) :: ys

/-- Node's `path.basename` (POSIX): strip trailing `/` separators, then
take the part after the last `/`. -/
def basename (p : String) : String :=
  let cs := p.toList
  let trimmed := (cs.reverse.dropWhile (fun c => c = '/')).reverse
  if trimmed.isEmpty then (if cs.isEmpty then "" else "/")
  else String.mk ((splitChar '/' trimmed).getLastD trimmed)

/-- The idiom `const [repoId, ...pathParts] = id.split(':')` followed by
`pathParts.join(':')`. -/
def splitRepoPath (id : String) : String × String :=
  match splitChar ':' id.toList with
  | [] => ("", "")
  | r :: rest => (String.mk r, String.intercalate ":" (rest.map String.mk))

/-- JavaScript `String.prototype.startsWith`. -/
def strStartsWith (s pre : String) : Bool :=
  pre.toList.isPrefixOf s.toList

/-- JavaScript `String.prototype.endsWith`. -/
def strEndsWith (s suffix_ : String) : Bool :=
  suffix_.toList.isSuffixOf s.toList

/-- JavaScript `String.prototype.trim`: strip whitespace from both
ends. -/
def strTrim (s : String) : String :=
  String.mk (((s.toList.dropWhile Char.isWhitespace).reverse.dropWhile
    Char.isWhitespace).reverse)

/-- JavaScript `String.prototype.includes`. -/
def strIncludes (s sub : String) : Bool :=
  decide (sub.toList <:+: s.toList)

/-- JavaScript truthiness of an optional string argument
(`undefined` and the empty string are falsy). -/
def strTruthy : Option String → Bool
  | none => false
  | some s => !s.isEmpty

/-- JavaScript `s || dflt` on strings (empty string is falsy). -/
def jsOrStr (s dflt : String) : String :=
  if s.isEmpty then dflt else s

/-- JavaScript `o || dflt` where the field may be absent
(`undefined`) or an empty (falsy) string. -/
def jsOrOpt (o : Option String) (dflt : String) : String :=
  match o with
  | none => dflt
  | some s => jsOrStr s dflt

/-- `aiResponse.match(/\x7b[\s\S]*\x7d/)`: the leftmost-greedy match is
the substring from the first `\x7b` to the last `\x7d`, when the first
`\x7b` precedes the last `\x7d`; otherwise there is no match. -/
def extractJson (s : String) : Option String :=
  let cs := s.toList
  match cs.findIdx? (fun c => c = '{') with
  | none => none
  | some i =>
    match cs.reverse.findIdx? (fun c => c = '}') with
    | none => none
    | some jr =>
      let j := cs.length - 1 - jr
      if i < j then some (String.mk ((cs.drop i).take (j - i + 1))) else none

/-- The value produced by `JSON.parse` on the classifier's reply, with
exactly the three fields the analyzer reads; a `none` field models the
field being absent (`undefined`) in the parsed object. -/
structure ParsedJson where
  isBreaking : Option Bool
  explanation : Option String
  changedFunctions : Option (List String)
deriving Repr, DecidableEq

/-- Outcome of `fs.existsSync` + `fs.readFileSync` for one file of the
semantic scan. -/
inductive FileAccess where
  | absent
  | content (text : String)
  | readError
deriving Repr, DecidableEq

/-- Host-environment oracles around the analyzer: the generative-model
call (which may reject), `JSON.parse` (which may throw), the local
file store keyed by `(repoId, filePath)` (the path arithmetic of
`process.cwd()/repos/<repoId>/<filePath>` is deterministic in that
pair), and `new Date().toISOString()`. -/
structure AnalysisEnv where
  generateContent : String → Except String String
  parseJson : String → Except String ParsedJson
  readFile : String → String → FileAccess
  now : String

/-- The consolidated classifier prompt built in `analyzeFileChange`,
with both contents truncated to their first 2000 characters. -/
def buildPrompt (oldContent newContent : String) : String :=
  "Analyze these code changes and provide two things:\n" ++
  "1. A list of changed function names (added, modified, or removed).\n" ++
  "2. Whether this is a breaking API change.\n\n" ++
  "STRICT DEFINITION OF BREAKING CHANGE:\n" ++
  "- Renaming an exported function.\n" ++
  "- Changing the runtime structure of the return value (e.g., returning an object instead of an array).\n" ++
  "- Adding a required argument.\n" ++
  "- Removing an argument.\n\n" ++
  "NON-BREAKING CHANGES (DO NOT REPORT AS BREAKING):\n" ++
  "- Changing a specific type to \x27any\x27 or \x27unknown\x27 (Type widening is NOT breaking).\n" ++
  "- Adding an optional argument.\n" ++
  "- Internal logic changes that do not affect the output structure.\n" ++
  "- Refactoring or code cleanup.\n\n" ++
  "OLD CODE:\n```\n" ++ oldContent.take 2000 ++ "\n```\n\n" ++
  "NEW CODE:\n```\n" ++ newContent.take 2000 ++ "\n```\n\n" ++
  "Respond ONLY with valid JSON in this format:\n" ++
  "\x7b\n  \"changedFunctions\": [\"funcName1\", \"funcName2\"],\n" ++
  "  \"isBreaking\": true/false,\n" ++
  "  \"explanation\": \"Brief explanation of why it is breaking or not\"\n\x7d\n" ++
  "If no functions changed, set \"changedFunctions\" to []."

/-- `.ts` / `.tsx` / `.js` / `.jsx` test
(`n.id.match` against the extension alternation anchored at the end). -/
def isSourceFileId (id : String) : Bool :=
  strEndsWith id ".ts" || strEndsWith id ".tsx" || strEndsWith id ".js" || strEndsWith id ".jsx"

/-- The per-file usage scan of `searchForAffectedFiles`: for each
candidate function name contained in the file, record the first line
containing it. -/
def findUsages (functionList : List String) (text : String) : List String :=
  let lines := (splitChar '\n' text.toList).map String.mk
  functionList.foldl (fun usages fn =>
    if strIncludes text fn then
      match lines.findIdx? (fun l => strIncludes l fn) with
      | some i => usages ++ [fn ++ " (line " ++ toString (i + 1) ++ ")"]
      | none => usages
    else usages) []

/-- The body of the per-file `try`/`catch` of
`searchForAffectedFiles`: read one file, scan it for usages, and append
an entry when at least one usage matched; a missing file or a read
error contributes nothing. -/
def scanFileStep (env : AnalysisEnv) (functionList : List String)
    (affected : List AffectedFile) (file : GraphNode) : List AffectedFile :=
  let rp := splitRepoPath file.id
  match env.readFile rp.1 rp.2 with
  | FileAccess.absent => affected
  | FileAccess.readError => affected
  | FileAccess.content text =>
    let usages := findUsages functionList text
    if usages.length > 0 then
      affected ++ [⟨rp.1, rp.2, "Uses modified functions: " ++ String.intercalate ", " usages⟩]
    else affected

/-- `ImpactAnalyzer.searchForAffectedFiles`: textual scan of up to 50
source files of other repositories for the changed function names.
Per-file read errors are swallowed (the file is skipped). -/
def searchForAffectedFiles (env : AnalysisEnv) (g : Graph) (sourceRepoId : String)
    (changedFunctions : List String) : List AffectedFile :=
  let functionList := (changedFunctions.map (fun f => strTrim f)).filter (fun f => f.length > 2)
  if functionList.length = 0 then []
  else
    let otherRepoFiles := g.nodes.filter (fun n =>
      n.type == "FILE" && !(strStartsWith n.id sourceRepoId) && isSourceFileId n.id)
    (otherRepoFiles.take 50).foldl (scanFileStep env functionList) []

/-- The inner `for (const edge of dependentEdges)` loop of
`findAffectedFiles`: add each unvisited edge source to the visited set
and the queue, and report it when it belongs to a different repo.
State is `(visited, queue, affected)`. -/
def visitDependentEdges (changedNodeId sourceRepoId : String) :
    List GraphEdge → List String × List String × List AffectedFile →
    List String × List String × List AffectedFile
  | [], st => st
  | e :: rest, (visited, queue, affected) =>
    if e.source ∈ visited then
      visitDependentEdges changedNodeId sourceRepoId rest (visited, queue, affected)
    else
      let visited' := visited ++ [e.source]
      let queue' := queue ++ [e.source]
      let rp := splitRepoPath e.source
      let affected' :=
        if rp.1 ≠ sourceRepoId then
          affected ++ [⟨rp.1, rp.2, "Imports " ++ basename changedNodeId⟩]
        else affected
      visitDependentEdges changedNodeId sourceRepoId rest (visited', queue', affected')

/-- The `while (queue.length > 0)` loop of `findAffectedFiles`, run
with an explicit iteration budget.  Returns the remaining queue, the
visited set and the accumulated affected files; a budget of
`|edges| + 1` always drains the queue (proved below). -/
def bfsLoop (g : Graph) (changedNodeId sourceRepoId : String) :
    Nat → List String → List String → List AffectedFile →
    List String × List String × List AffectedFile
  | 0, queue, visited, affected => (queue, visited, affected)
  | _ + 1, [], visited, affected => ([], visited, affected)
  | fuel + 1, current :: rest, visited, affected =>
    let deps := g.edges.filter (fun e => e.target == current && e.type == "IMPORTS")
    let st := visitDependentEdges changedNodeId sourceRepoId deps (visited, rest, affected)
    bfsLoop g changedNodeId sourceRepoId fuel st.2.1 st.1 st.2.2

/-- `ImpactAnalyzer.findAffectedFiles`: reverse-dependency BFS over
IMPORTS edges starting at the changed node. -/
def findAffectedFiles (g : Graph) (changedNodeId sourceRepoId : String) : List AffectedFile :=
  (bfsLoop g changedNodeId sourceRepoId (g.edges.length + 1)
    [changedNodeId] [changedNodeId] []).2.2

/-- The deduplication key `` `${f.repoId}:${f.filePath}` ``. -/
def afKey (f : AffectedFile) : String :=
  f.repoId ++ ":" ++ f.filePath

/-- JavaScript `Map.prototype.set`: overwrite the value of the first
entry with the given key in place, or append a new entry. -/
def mapInsert (m : List (String × AffectedFile)) (k : String) (v : AffectedFile) :
    List (String × AffectedFile) :=
  match m with
  | [] => [(k, v)]
  | p :: rest => if p.1 = k then (k, v) :: rest else p :: mapInsert rest k v

/-- `Array.from(new Map(list.map(f => [key f, f])).values())`:
deduplicate by key with JavaScript `Map` insertion semantics. -/
def dedupByKey (l : List AffectedFile) : List AffectedFile :=
  (l.foldl (fun m f => mapInsert m (afKey f) f) []).map (fun p => p.2)

/-- `Map.prototype.get`: the entry stored under key `k`. -/
def mapFind (m : List (String × AffectedFile)) (k : String) : Option (String × AffectedFile) :=
  m.find? (fun p => p.1 == k)

/-- Placeholder affected-file entry (default for `List.getLastD`). -/
def afDefault : AffectedFile := ⟨"", "", ""⟩

/-- Number of edges whose source has not been visited yet: the
termination measure of the BFS `while` loop (together with the queue
length). -/
def unvisitedEdges (edges : List GraphEdge) (visited : List String) : Nat :=
  (edges.filter (fun e => decide (e.source ∉ visited))).length

/-- `ImpactAnalyzer.determineSeverity`. -/
def determineSeverity (affectedCount : Nat) (isBreaking : Bool) : Severity :=
  if isBreaking ∧ affectedCount > 5 then Severity.CRITICAL
  else if isBreaking ∧ affectedCount > 0 then Severity.HIGH
  else if affectedCount > 10 then Severity.HIGH
  else if affectedCount > 5 then Severity.MEDIUM
  else Severity.LOW

/-- `ImpactAnalyzer.createEmptyResult`. -/
def createEmptyResult (env : AnalysisEnv) (projectId repoId filePath : String) : ImpactResult :=
  { projectId := projectId
    changedFile := filePath
    changedRepo := repoId
    affectedFiles := []
    isBreaking := false
    severity := Severity.LOW
    explanation := "File not found in dependency graph"
    timestamp := env.now }

/-- The classifier block of `analyzeFileChange` (guard on both
contents, model call, JSON extraction and parse, `||` field defaulting,
optional semantic scan).  Any caught failure leaves the defaults
`(false, "File modified", [])` in place. -/
def aiStep (env : AnalysisEnv) (g : Graph) (repoId : String)
    (oldContent newContent : Option String) : Bool × String × List AffectedFile :=
  if strTruthy oldContent && strTruthy newContent then
    match env.generateContent (buildPrompt (oldContent.getD "") (newContent.getD "")) with
    | Except.error _ => (false, "File modified", [])
    | Except.ok aiResponse =>
      match extractJson aiResponse with
      | none => (false, "File modified", [])
      | some jsonText =>
        match env.parseJson jsonText with
        | Except.error _ => (false, "File modified", [])
        | Except.ok result =>
          let isBreaking := result.isBreaking.getD false
          let explanation := jsOrOpt result.explanation "Analyzed by AI"
          let changedFunctions := result.changedFunctions.getD []
          let semanticAffectedFiles :=
            if changedFunctions.length > 0 then
              searchForAffectedFiles env g repoId changedFunctions
            else []
          (isBreaking, explanation, semanticAffectedFiles)
  else (false, "File modified", [])

/-- `ImpactAnalyzer.analyzeFileChange`. -/
def analyzeFileChange (env : AnalysisEnv) (g : Graph) (projectId repoId filePath : String)
    (oldContent newContent : Option String) : ImpactResult :=
  let normalizedPath := replaceChar '\\' '/' filePath
  let possibleNodeIds := [repoId ++ ":" ++ normalizedPath,
                          repoId ++ ":" ++ filePath,
                          repoId ++ ":" ++ replaceChar '/' '\\' filePath]
  match possibleNodeIds.find? (fun nodeId => (g.nodes.find? (fun n => n.id == nodeId)).isSome) with
  | none => createEmptyResult env projectId repoId filePath
  | some changedNodeId =>
    let graphAffectedFiles := findAffectedFiles g changedNodeId repoId
    let st := aiStep env g repoId oldContent newContent
    let allAffectedFiles := graphAffectedFiles ++ st.2.2
    let uniqueAffectedFiles := dedupByKey allAffectedFiles
    if !st.1 then
      { projectId := projectId
        changedFile := filePath
        changedRepo := repoId
        affectedFiles := []
        isBreaking := st.1
        severity := Severity.LOW
        explanation := jsOrStr st.2.1 "Non-breaking change detected"
        timestamp := env.now }
    else
      { projectId := projectId
        changedFile := filePath
        changedRepo := repoId
        affectedFiles := uniqueAffectedFiles
        isBreaking := st.1
        severity := determineSeverity uniqueAffectedFiles.length st.1
        explanation := st.2.1
        timestamp := env.now }

/-- Outcome of one `model.generateContent` attempt inside
`AIService.generateContent`: success, a rate-limit rejection (message
containing `429` or status 429), or any other rejection. -/
inductive AttemptOutcome where
  | ok (text : String)
  | rateLimitError
  | otherError
deriving Repr, DecidableEq

/-- Observable outcome of `AIService.generateContent`: the returned
string, the backoff delays slept (in milliseconds, in order), and the
number of attempts performed. -/
structure GenResult where
  text : String
  delays : List Nat
  attempts : Nat
deriving Repr, DecidableEq

/-- The `for (let attempt = 1; attempt <= retries; attempt++)` retry
loop of `AIService.generateContent`; `f` gives the outcome of each
attempt.  On a rate-limit error with attempts left it sleeps
`2 ^ attempt * 1000` ms and retries; on any other error it returns
`''` when the budget is exhausted, and otherwise falls through to the
next loop iteration. -/
def generateContentLoop (f : Nat → AttemptOutcome) (retries attempt : Nat)
    (delays : List Nat) (count : Nat) : GenResult :=
  if attempt > retries then ⟨"", delays, count⟩
  else
    match f attempt with
    | AttemptOutcome.ok t => ⟨t, delays, count + 1⟩
    | AttemptOutcome.rateLimitError =>
      if attempt < retries then
        generateContentLoop f retries (attempt + 1) (delays ++ [2 ^ attempt * 1000]) (count + 1)
      else ⟨"", delays, count + 1⟩
    | AttemptOutcome.otherError =>
      if attempt = retries then ⟨"", delays, count + 1⟩
      else generateContentLoop f retries (attempt + 1) delays (count + 1)
termination_by retries + 1 - attempt
decreasing_by all_goals omega

/-- `AIService.generateContent(prompt, retries)`: immediately returns
`''` without any attempt when no API key is configured, otherwise runs
the retry loop starting at attempt 1. -/
def generateContent (hasKey : Bool) (f : Nat → AttemptOutcome) (retries : Nat) : GenResult :=
  if hasKey then generateContentLoop f retries 1 [] 0 else ⟨"", [], 0⟩

/-- An environment in which every host call fails: the model call
rejects, `JSON.parse` throws and every file read throws. -/
def envAllFail : AnalysisEnv :=
  { generateContent := fun _ => Except.error "boom"
    parseJson := fun _ => Except.error "SyntaxError"
    readFile := fun _ _ => FileAccess.readError
    now := "2026-01-01T00:00:00.000Z" }

/-- An inert environment: no JSON in the model reply, no files on disk. -/
def envQuiet : AnalysisEnv :=
  { generateContent := fun _ => Except.ok "no json here"
    parseJson := fun _ => Except.error "SyntaxError"
    readFile := fun _ _ => FileAccess.absent
    now := "2026-01-01T00:00:00.000Z" }

/-- An environment whose classifier replies with a breaking verdict and
an empty changed-function list. -/
def envBreaking : AnalysisEnv :=
  { generateContent := fun _ => Except.ok "\x7b\"isBreaking\": true\x7d"
    parseJson := fun _ => Except.ok ⟨some true, some "Renamed exported function", some []⟩
    readFile := fun _ _ => FileAccess.absent
    now := "2026-01-01T00:00:00.000Z" }

/-- The empty project graph. -/
def gEmpty : Graph := ⟨[], []⟩

/-- The two-repository scenario of the spec: repo `r1` holds
`src/a.ts` importing `./b.ts`, repo `r2` holds `c.ts` importing the
`r1` file `src/a.ts`. -/
def gScenario : Graph :=
  { nodes := [⟨"r1:src/a.ts", "FILE"⟩, ⟨"r1:src/b.ts", "FILE"⟩, ⟨"r2:c.ts", "FILE"⟩]
    edges := [⟨"r1:src/a.ts", "r1:src/b.ts", "IMPORTS"⟩,
              ⟨"r2:c.ts", "r1:src/a.ts", "IMPORTS"⟩] }

/-- A two-node import cycle: `A` imports `B` and `B` imports `A`. -/
def gCycle : Graph :=
  { nodes := [⟨"r1:A.ts", "FILE"⟩, ⟨"r1:B.ts", "FILE"⟩]
    edges := [⟨"r1:A.ts", "r1:B.ts", "IMPORTS"⟩,
              ⟨"r1:B.ts", "r1:A.ts", "IMPORTS"⟩] }

/-- A three-repository graph for the semantic scan: the changed repo
`r1` plus one file in `r2` and one in `r3`. -/
def gScan : Graph :=
  { nodes := [⟨"r1:src/a.ts", "FILE"⟩, ⟨"r2:c.ts", "FILE"⟩, ⟨"r3:d.ts", "FILE"⟩]
    edges := [] }

/-- A mixed environment: reading `r2/c.ts` throws, `r3/d.ts` is
readable and uses `renamedFn`, every other file is absent; the
classifier call rejects. -/
def envMixed : AnalysisEnv :=
  { generateContent := fun _ => Except.error "boom"
    parseJson := fun _ => Except.error "SyntaxError"
    readFile := fun r p =>
      if r = "r2" ∧ p = "c.ts" then FileAccess.readError
      else if r = "r3" ∧ p = "d.ts" then FileAccess.content "export const x = renamedFn();"
      else FileAccess.absent
    now := "2026-01-01T00:00:00.000Z" }

/-- `envMixed` with the read error replaced by the file being absent
from disk. -/
def envAbsent : AnalysisEnv :=
  { envMixed with
    readFile := fun r p =>
      if r = "r2" ∧ p = "c.ts" then FileAccess.absent
      else if r = "r3" ∧ p = "d.ts" then FileAccess.content "export const x = renamedFn();"
      else FileAccess.absent }

/-- A structural and a semantic entry for the same `(repoId, filePath)`
pair, differing in their reason. -/
def structuralDup : AffectedFile := ⟨"r2", "c.ts", "Imports a.ts"⟩

/-- See `structuralDup`. -/
def semanticDup : AffectedFile := ⟨"r2", "c.ts", "Uses modified functions: foo (line 1)"⟩

lemma find?_eq_none_of_no_id (g : Graph) (nodeId : String)
    (hno : ∀ n ∈ g.nodes, n.id ≠ nodeId) :
    g.nodes.find? (fun n => n.id == nodeId) = none := by
  refine List.find?_eq_none.mpr ?_
  intro n hn
  simpa using hno n hn

/-- C2: the severity decision table, in the order the source evaluates
it: breaking with more than 5 affected is CRITICAL; breaking with at
least one affected is HIGH; more than 10 affected is HIGH; more than 5
affected is MEDIUM; anything else is LOW. -/
theorem severity_decision_table (n : Nat) :
    (5 < n → determineSeverity n true = Severity.CRITICAL)
  ∧ (0 < n → n ≤ 5 → determineSeverity n true = Severity.HIGH)
  ∧ (determineSeverity 0 true = Severity.LOW)
  ∧ (10 < n → determineSeverity n false = Severity.HIGH)
  ∧ (5 < n → n ≤ 10 → determineSeverity n false = Severity.MEDIUM)
  ∧ (n ≤ 5 → determineSeverity n false = Severity.LOW) := by
  unfold determineSeverity
  refine ⟨?_, ?_, by norm_num, ?_, ?_, ?_⟩ <;> intros <;> split_ifs <;> simp_all <;> omega

/-- Witness for `severity_decision_table` at the boundary counts
6, 1, 0, 11, 6 and 5. -/
theorem severity_decision_table_boundaries :
    determineSeverity 6 true = Severity.CRITICAL
  ∧ determineSeverity 1 true = Severity.HIGH
  ∧ determineSeverity 0 true = Severity.LOW
  ∧ determineSeverity 11 false = Severity.HIGH
  ∧ determineSeverity 6 false = Severity.MEDIUM
  ∧ determineSeverity 5 false = Severity.LOW :=
  ⟨(severity_decision_table 6).1 (by norm_num),
   (severity_decision_table 1).2.1 (by norm_num) (by norm_num),
   (severity_decision_table 0).2.2.1,
   (severity_decision_table 11).2.2.2.1 (by norm_num),
   (severity_decision_table 6).2.2.2.2.1 (by norm_num) (by norm_num),
   (severity_decision_table 5).2.2.2.2.2 (by norm_num)⟩

/-- C8 counterexample: a failure that is not a rate limit is retried as
well — with every attempt rejecting with a non-429 error the loop
performs all 3 attempts, not the single attempt the claim's
"no retry for non-rate-limit failures" would give. -/
theorem nonratelimit_retried_cex :
    (generateContent true (fun _ => AttemptOutcome.otherError) 3).attempts = 3
  ∧ ((3 : Nat) ≠ 1) := by
  refine ⟨?_, by decide⟩
  simp [generateContent, generateContentLoop]

/-- C8 amended: at most 3 attempts in total; rate-limit errors sleep
2000 then 4000 ms (doubling from a 2 s base) between attempts;
non-rate-limit failures are retried immediately with no backoff sleep;
when every attempt fails the empty string is returned. -/
theorem retry_policy (f : Nat → AttemptOutcome) :
    (generateContent true f 3).attempts ≤ 3
  ∧ ((∀ i, f i = AttemptOutcome.rateLimitError) →
      generateContent true f 3 = ⟨"", [2000, 4000], 3⟩)
  ∧ (∀ t, f 1 = AttemptOutcome.otherError → f 2 = AttemptOutcome.ok t →
      generateContent true f 3 = ⟨t, [], 2⟩)
  ∧ ((∀ i, f i = AttemptOutcome.otherError) →
      generateContent true f 3 = ⟨"", [], 3⟩) := by
  refine ⟨?_, ?_, ?_, ?_⟩
  · rcases h1 : f 1 <;> rcases h2 : f 2 <;> rcases h3 : f 3 <;>
      simp [generateContent, generateContentLoop, h1, h2, h3]
  · intro h
    simp [generateContent, generateContentLoop, h 1, h 2, h 3]
  · intro t h1 h2
    simp [generateContent, generateContentLoop, h1, h2]
  · intro h
    simp [generateContent, generateContentLoop, h 1, h 2, h 3]

/-- Witness for `retry_policy`: the always-rate-limited run and the
fail-once-then-succeed run. -/
theorem retry_policy_runs :
    generateContent true (fun _ => AttemptOutcome.rateLimitError) 3 = ⟨"", [2000, 4000], 3⟩
  ∧ generateContent true (fun i => if i = 1 then AttemptOutcome.otherError
      else AttemptOutcome.ok "pong") 3 = ⟨"pong", [], 2⟩ :=
  ⟨(retry_policy (fun _ => AttemptOutcome.rateLimitError)).2.1 (fun _ => rfl),
   (retry_policy (fun i => if i = 1 then AttemptOutcome.otherError
      else AttemptOutcome.ok "pong")).2.2.1 "pong" rfl rfl⟩

lemma beq_false_of_ne {a b : String} (h : a ≠ b) : ¬ (a == b) = true := by
  simpa [beq_iff_eq] using h

lemma mapFind_mapInsert (m : List (String × AffectedFile)) (k k' : String) (v : AffectedFile) :
    mapFind (mapInsert m k v) k' = if k' = k then some (k, v) else mapFind m k' := by
  induction m with
  | nil =>
    by_cases h2 : k' = k
    · have e : (k == k') = true := by simp [beq_iff_eq, h2]
      simp [mapInsert, mapFind, List.find?_cons, e, h2]
    · have e : (k == k') = false := by
        rw [beq_eq_false_iff_ne]; exact fun h => h2 h.symm
      simp [mapInsert, mapFind, List.find?_cons, e, h2]
  | cons p rest ih =>
    by_cases h1 : p.1 = k
    · by_cases h2 : k' = k
      · have e : (k == k') = true := by simp [beq_iff_eq, h2]
        simp [mapInsert, mapFind, h1, List.find?_cons, e, h2]
      · have e1 : (k == k') = false := by
          rw [beq_eq_false_iff_ne]; exact fun h => h2 h.symm
        have e2 : (p.1 == k') = false := by
          rw [beq_eq_false_iff_ne]; exact fun h => h2 (h.symm.trans h1)
        simp [mapInsert, mapFind, h1, List.find?_cons, e1, e2, h2]
    · by_cases h3 : p.1 = k'
      · have h2 : ¬ k' = k := fun h => h1 (h3.trans h)
        have e : (p.1 == k') = true := by simp [beq_iff_eq, h3]
        simp [mapInsert, mapFind, h1, List.find?_cons, e, h2]
      · have e : (p.1 == k') = false := by rw [beq_eq_false_iff_ne]; exact h3
        simp only [mapFind] at ih
        by_cases h2 : k' = k
        · subst h2
          simp [mapInsert, mapFind, h1, List.find?_cons, e, ih]
        · simp [mapInsert, mapFind, h1, List.find?_cons, e, h2, ih]

lemma mapInsert_keys_subset (m : List (String × AffectedFile)) (k : String) (v : AffectedFile) :
    ∀ x ∈ (mapInsert m k v).map Prod.fst, x = k ∨ x ∈ m.map Prod.fst := by
  induction m with
  | nil => simp [mapInsert]
  | cons p rest ih =>
    by_cases h1 : p.1 = k <;> simp only [mapInsert, h1, ite_true, ite_false] <;>
      intro x hx <;> simp only [List.map_cons, List.mem_cons] at hx ⊢
    · rcases hx with rfl | hx
      · exact Or.inl rfl
      · exact Or.inr (Or.inr hx)
    · rcases hx with rfl | hx
      · exact Or.inr (Or.inl rfl)
      · rcases ih x hx with h | h
        · exact Or.inl h
        · exact Or.inr (Or.inr h)

lemma mapInsert_keys_nodup (m : List (String × AffectedFile)) (k : String) (v : AffectedFile)
    (h : (m.map Prod.fst).Nodup) : ((mapInsert m k v).map Prod.fst).Nodup := by
  induction m with
  | nil => simp [mapInsert]
  | cons p rest ih =>
    simp only [List.map_cons, List.nodup_cons] at h
    by_cases h1 : p.1 = k <;> simp only [mapInsert, h1, ite_true, ite_false, List.map_cons,
      List.nodup_cons]
    · exact ⟨h1 ▸ h.1, h.2⟩
    · refine ⟨?_, ih h.2⟩
      intro hmem
      rcases mapInsert_keys_subset rest k v p.1 hmem with h2 | h2
      · exact h1 h2
      · exact h.1 h2

lemma mapInsert_keys_ok (m : List (String × AffectedFile)) (v : AffectedFile) :
    (∀ p ∈ m, afKey p.2 = p.1) → ∀ p ∈ mapInsert m (afKey v) v, afKey p.2 = p.1 := by
  induction m with
  | nil =>
    intro _ p hp
    simp only [mapInsert, List.mem_singleton] at hp
    subst hp
    rfl
  | cons q rest ih =>
    intro h p hp
    simp only [mapInsert] at hp
    by_cases h1 : q.1 = afKey v
    · rw [if_pos h1] at hp
      rcases List.mem_cons.mp hp with rfl | hp
      · rfl
      · exact h p (List.mem_cons_of_mem q hp)
    · rw [if_neg h1] at hp
      rcases List.mem_cons.mp hp with rfl | hp
      · exact h _ (List.mem_cons_self _ _)
      · exact ih (fun r hr => h r (List.mem_cons_of_mem _ hr)) p hp

lemma foldl_mapInsert_keys_nodup (l : List AffectedFile) :
    ∀ m : List (String × AffectedFile), (m.map Prod.fst).Nodup →
      ((l.foldl (fun m f => mapInsert m (afKey f) f) m).map Prod.fst).Nodup := by
  induction l with
  | nil => intro m hm; simpa using hm
  | cons f t ih =>
    intro m hm
    exact ih (mapInsert m (afKey f) f) (mapInsert_keys_nodup m (afKey f) f hm)

lemma foldl_mapInsert_keys_ok (l : List AffectedFile) :
    ∀ m : List (String × AffectedFile), (∀ p ∈ m, afKey p.2 = p.1) →
      ∀ p ∈ l.foldl (fun m f => mapInsert m (afKey f) f) m, afKey p.2 = p.1 := by
  induction l with
  | nil => intro m hm; simpa using hm
  | cons f t ih =>
    intro m hm
    exact ih (mapInsert m (afKey f) f) (mapInsert_keys_ok m f hm)

lemma getLastD_cons_of_ne_nil {α} (a d : α) (l : List α) (h : l ≠ []) :
    (a :: l).getLastD d = l.getLastD d := by
  rcases l with _ | ⟨b, t⟩
  · exact absurd rfl h
  · simp [List.getLastD_cons]

lemma mapFind_foldl (l : List AffectedFile) :
    ∀ (m : List (String × AffectedFile)) (k : String),
      mapFind (l.foldl (fun m f => mapInsert m (afKey f) f) m) k =
        if l.filter (fun f => afKey f == k) = [] then mapFind m k
        else some (k, (l.filter (fun f => afKey f == k)).getLastD afDefault) := by
  induction l with
  | nil => intro m k; simp
  | cons f t ih =>
    intro m k
    simp only [List.foldl_cons, List.filter_cons]
    by_cases hk : afKey f = k
    · rw [if_pos (show (afKey f == k) = true by simp [beq_iff_eq, hk])]
      rw [ih (mapInsert m (afKey f) f) k]
      by_cases ht : t.filter (fun f => afKey f == k) = []
      · rw [if_pos ht, mapFind_mapInsert, if_pos hk.symm, ht,
          if_neg (show (f :: ([] : List AffectedFile)) ≠ [] by simp)]
        simp [hk]
      · rw [if_neg ht,
          if_neg (show (f :: t.filter (fun f => afKey f == k)) ≠ [] by simp),
          getLastD_cons_of_ne_nil f afDefault _ ht]
    · rw [if_neg (show ¬ ((afKey f == k) = true) from beq_false_of_ne hk)]
      rw [ih (mapInsert m (afKey f) f) k]
      by_cases ht : t.filter (fun f => afKey f == k) = []
      · rw [if_pos ht, if_pos ht, mapFind_mapInsert, if_neg (fun h => hk h.symm)]
      · rw [if_neg ht, if_neg ht]

lemma values_filter_of_nodup (m : List (String × AffectedFile)) (k : String) :
    (∀ p ∈ m, afKey p.2 = p.1) → (m.map Prod.fst).Nodup →
      (m.map (fun p => p.2)).filter (fun f => afKey f == k) =
        ((mapFind m k).map (fun p => p.2)).toList := by
  induction m with
  | nil => intro _ _; simp [mapFind]
  | cons q rest ih =>
    intro hok hnd
    have hq : afKey q.2 = q.1 := hok q (List.mem_cons_self _ _)
    simp only [List.map_cons, List.nodup_cons] at hnd
    by_cases hqk : q.1 = k
    · have e : (afKey q.2 == k) = true := by simp [beq_iff_eq, hq, hqk]
      have hrest : (rest.map (fun p => p.2)).filter (fun f => afKey f == k) = [] := by
        refine List.filter_eq_nil_iff.mpr ?_
        intro f hf
        rcases List.mem_map.mp hf with ⟨p, hp, rfl⟩
        have hpk : afKey p.2 = p.1 := hok p (List.mem_cons_of_mem _ hp)
        refine beq_false_of_ne ?_
        rw [hpk]
        intro hc
        refine hnd.1 ?_
        rw [hqk, ← hc]
        exact List.mem_map.mpr ⟨p, hp, rfl⟩
      have hfind : List.find? (fun p => p.1 == k) (q :: rest) = some q :=
        List.find?_cons_of_pos _ (show (q.1 == k) = true by simp [beq_iff_eq, hqk])
      simp only [List.map_cons, List.filter_cons, e, ite_true, hrest, mapFind, hfind]
      simp
    · have e : ¬ ((afKey q.2 == k) = true) := by
        rw [hq]; exact beq_false_of_ne hqk
      have hfind : List.find? (fun p => p.1 == k) (q :: rest) =
          List.find? (fun p => p.1 == k) rest :=
        List.find?_cons_of_neg _ (beq_false_of_ne hqk)
      simp only [List.map_cons, List.filter_cons, if_neg e, mapFind, hfind]
      exact ih (fun p hp => hok p (List.mem_cons_of_mem _ hp)) hnd.2

/-- C5 counterexample: deduplicating a structural entry and a semantic
entry with the same `(repoId, filePath)` key keeps the *later*
(semantic) entry — the later entry's reason does overwrite the earlier
one, contrary to the claim that the first entry survives. -/
theorem dedup_keeps_later_cex :
    dedupByKey [structuralDup, semanticDup] = [semanticDup]
  ∧ structuralDup ≠ semanticDup := by decide

/-- C5 amended: concatenated structural and semantic entries are
deduplicated by the key `(repository id, file path)`; all entries with
the same key collapse to exactly one surviving entry, and the survivor
is the *last* entry with that key in concatenation order (a later
semantic entry overwrites an earlier structural entry's reason). -/
theorem dedup_collapses_last_wins (l : List AffectedFile) (k : String)
    (h : l.filter (fun f => afKey f == k) ≠ []) :
    (dedupByKey l).filter (fun f => afKey f == k) =
      [(l.filter (fun f => afKey f == k)).getLastD afDefault] := by
  unfold dedupByKey
  rw [values_filter_of_nodup _ k
      (foldl_mapInsert_keys_ok l [] (by simp))
      (foldl_mapInsert_keys_nodup l [] (by simp)),
    mapFind_foldl l [] k, if_neg h]
  simp

/-- Witness for `dedup_collapses_last_wins` on the structural/semantic
duplicate pair. -/
theorem dedup_collapses_last_wins_pair :
    (dedupByKey [structuralDup, semanticDup]).filter (fun f => afKey f == "r2:c.ts") =
      [([structuralDup, semanticDup].filter (fun f => afKey f == "r2:c.ts")).getLastD afDefault] :=
  dedup_collapses_last_wins [structuralDup, semanticDup] "r2:c.ts" (by decide)

/-- C6 amended (capitalisation): when none of the three candidate node
ids occurs in the graph, `analyzeFileChange` returns the defined empty
result: no affected files, severity LOW, not breaking, explanation
"File not found in dependency graph". -/
theorem file_not_found_defined_outcome (env : AnalysisEnv) (g : Graph)
    (pid rid fp : String) (oldC newC : Option String)
    (h : ∀ n ∈ g.nodes,
      n.id ≠ rid ++ ":" ++ replaceChar '\\' '/' fp ∧
      n.id ≠ rid ++ ":" ++ fp ∧
      n.id ≠ rid ++ ":" ++ replaceChar '/' '\\' fp) :
    analyzeFileChange env g pid rid fp oldC newC =
      { projectId := pid, changedFile := fp, changedRepo := rid,
        affectedFiles := [], isBreaking := false, severity := Severity.LOW,
        explanation := "File not found in dependency graph", timestamp := env.now } := by
  have hfind : ([rid ++ ":" ++ replaceChar '\\' '/' fp, rid ++ ":" ++ fp,
      rid ++ ":" ++ replaceChar '/' '\\' fp].find?
        (fun nodeId => (g.nodes.find? (fun n => n.id == nodeId)).isSome)) = none := by
    refine List.find?_eq_none.mpr ?_
    intro nodeId hmem
    have hno : ∀ n ∈ g.nodes, n.id ≠ nodeId := by
      intro n hn
      simp only [List.mem_cons, List.not_mem_nil, or_false] at hmem
      rcases hmem with rfl | rfl | rfl
      · exact (h n hn).1
      · exact (h n hn).2.1
      · exact (h n hn).2.2
    simp [find?_eq_none_of_no_id g nodeId hno]
  simp only [analyzeFileChange, hfind, createEmptyResult]

/-- C6 counterexample: the explanation carried by the defined empty
result is capitalised "File not found in dependency graph", not the
claimed "file not found in dependency graph". -/
theorem file_not_found_explanation_cex :
    (analyzeFileChange envQuiet gEmpty "p" "r1" "src/a.ts" none none).explanation
      = "File not found in dependency graph"
  ∧ (analyzeFileChange envQuiet gEmpty "p" "r1" "src/a.ts" none none).explanation
      ≠ "file not found in dependency graph" := by decide

/-- Witness for `file_not_found_defined_outcome` on the empty graph. -/
theorem file_not_found_defined_outcome_empty :
    analyzeFileChange envQuiet gEmpty "p" "r1" "src/a.ts" none none =
      { projectId := "p", changedFile := "src/a.ts", changedRepo := "r1",
        affectedFiles := [], isBreaking := false, severity := Severity.LOW,
        explanation := "File not found in dependency graph",
        timestamp := envQuiet.now } :=
  file_not_found_defined_outcome envQuiet gEmpty "p" "r1" "src/a.ts" none none
    (by intro n hn; simp [gEmpty] at hn)

lemma length_filter_le_of_imp {α} (l : List α) (p q : α → Bool)
    (h : ∀ x, p x = true → q x = true) :
    (l.filter p).length ≤ (l.filter q).length := by
  induction l with
  | nil => simp
  | cons a t ih =>
    by_cases hpa : p a = true
    · rw [List.filter_cons, if_pos hpa, List.filter_cons, if_pos (h a hpa)]
      simpa using ih
    · rw [List.filter_cons, if_neg hpa, List.filter_cons]
      by_cases hqa : q a = true
      · rw [if_pos hqa]
        simp only [List.length_cons]
        omega
      · rw [if_neg hqa]
        exact ih

lemma length_filter_succ_le_of_witness {α} (l : List α) (p q : α → Bool)
    (h : ∀ x, p x = true → q x = true) :
    ∀ x ∈ l, p x = false → q x = true →
      (l.filter p).length + 1 ≤ (l.filter q).length := by
  induction l with
  | nil => intro x hx; cases hx
  | cons a t ih =>
    intro x hx hpx hqx
    rcases List.mem_cons.mp hx with rfl | hx
    · rw [List.filter_cons, if_neg (by simp [hpx]), List.filter_cons, if_pos hqx]
      have := length_filter_le_of_imp t p q h
      simp only [List.length_cons]
      omega
    · by_cases hpa : p a = true
      · rw [List.filter_cons, if_pos hpa, List.filter_cons, if_pos (h a hpa)]
        have := ih x hx hpx hqx
        simp only [List.length_cons]
        omega
      · rw [List.filter_cons, if_neg hpa, List.filter_cons]
        by_cases hqa : q a = true
        · rw [if_pos hqa]
          have := ih x hx hpx hqx
          simp only [List.length_cons]
          omega
        · rw [if_neg hqa]
          exact ih x hx hpx hqx

lemma unvisited_extend_lt (edges : List GraphEdge) (v : List String) (s : String)
    (hs : s ∉ v) (e : GraphEdge) (he : e ∈ edges) (hes : e.source = s) :
    unvisitedEdges edges (v ++ [s]) + 1 ≤ unvisitedEdges edges v := by
  refine length_filter_succ_le_of_witness edges _ _ ?_ e he ?_ ?_
  · intro x hx
    simp only [decide_eq_true_eq] at hx ⊢
    intro hv
    exact hx (List.mem_append_left _ hv)
  · rw [decide_eq_false_iff_not, not_not]
    exact List.mem_append_right _ (by simp [hes])
  · simp only [decide_eq_true_eq]
    rw [hes]
    exact hs

lemma unvisited_append_le (edges : List GraphEdge) :
    ∀ (ns v : List String), ns.Nodup → (∀ s ∈ ns, s ∉ v) →
      (∀ s ∈ ns, ∃ e ∈ edges, e.source = s) →
      unvisitedEdges edges (v ++ ns) + ns.length ≤ unvisitedEdges edges v := by
  intro ns
  induction ns with
  | nil => intro v _ _ _; simp
  | cons s t ih =>
    intro v hnd hnv hsrc
    rcases hsrc s (List.mem_cons_self _ _) with ⟨e, he, hes⟩
    have h1 : unvisitedEdges edges (v ++ [s]) + 1 ≤ unvisitedEdges edges v :=
      unvisited_extend_lt edges v s (hnv s (List.mem_cons_self _ _)) e he hes
    have hnd' := List.nodup_cons.mp hnd
    have h2 : unvisitedEdges edges ((v ++ [s]) ++ t) + t.length ≤
        unvisitedEdges edges (v ++ [s]) := by
      refine ih (v ++ [s]) hnd'.2 ?_ (fun x hx => hsrc x (List.mem_cons_of_mem _ hx))
      intro x hx hc
      rcases List.mem_append.mp hc with hc | hc
      · exact hnv x (List.mem_cons_of_mem _ hx) hc
      · rw [List.mem_singleton] at hc
        subst hc
        exact hnd'.1 hx
    have hassoc : v ++ s :: t = (v ++ [s]) ++ t := by simp
    rw [hassoc]
    simp only [List.length_cons]
    omega

lemma visitDependentEdges_state (c src : String) :
    ∀ (deps : List GraphEdge) (v q : List String) (a : List AffectedFile),
      ∃ ns : List String,
        (visitDependentEdges c src deps (v, q, a)).1 = v ++ ns ∧
        (visitDependentEdges c src deps (v, q, a)).2.1 = q ++ ns ∧
        ns.Nodup ∧ (∀ s ∈ ns, s ∉ v) ∧
        (∀ s ∈ ns, ∃ e ∈ deps, e.source = s) := by
  intro deps
  induction deps with
  | nil =>
    intro v q a
    exact ⟨[], by simp [visitDependentEdges], by simp [visitDependentEdges],
      List.nodup_nil, by simp, by simp⟩
  | cons e rest ih =>
    intro v q a
    by_cases hv : e.source ∈ v
    · have heq : visitDependentEdges c src (e :: rest) (v, q, a) =
          visitDependentEdges c src rest (v, q, a) := by
        simp [visitDependentEdges, hv]
      rcases ih v q a with ⟨ns, h1, h2, h3, h4, h5⟩
      refine ⟨ns, ?_, ?_, h3, h4, ?_⟩
      · rw [heq]; exact h1
      · rw [heq]; exact h2
      · intro s hs
        rcases h5 s hs with ⟨e', he', hes⟩
        exact ⟨e', List.mem_cons_of_mem _ he', hes⟩
    · have heq : visitDependentEdges c src (e :: rest) (v, q, a) =
          visitDependentEdges c src rest (v ++ [e.source], q ++ [e.source],
            if (splitRepoPath e.source).1 ≠ src then
              a ++ [⟨(splitRepoPath e.source).1, (splitRepoPath e.source).2,
                "Imports " ++ basename c⟩]
            else a) := by
        simp [visitDependentEdges, hv]
      rcases ih (v ++ [e.source]) (q ++ [e.source])
          (if (splitRepoPath e.source).1 ≠ src then
            a ++ [⟨(splitRepoPath e.source).1, (splitRepoPath e.source).2,
              "Imports " ++ basename c⟩]
          else a) with ⟨ns, h1, h2, h3, h4, h5⟩
      refine ⟨e.source :: ns, ?_, ?_, ?_, ?_, ?_⟩
      · rw [heq, h1]; simp
      · rw [heq, h2]; simp
      · refine List.nodup_cons.mpr ⟨?_, h3⟩
        intro hc
        exact h4 e.source hc (List.mem_append_right _ (by simp))
      · intro s hs
        rcases List.mem_cons.mp hs with rfl | hs
        · exact hv
        · intro hc
          exact h4 s hs (List.mem_append_left _ hc)
      · intro s hs
        rcases List.mem_cons.mp hs with rfl | hs
        · exact ⟨e, List.mem_cons_self _ _, rfl⟩
        · rcases h5 s hs with ⟨e', he', hes⟩
          exact ⟨e', List.mem_cons_of_mem _ he', hes⟩

lemma bfsLoop_visited_nodup (g : Graph) (c src : String) :
    ∀ (fuel : Nat) (q v : List String) (a : List AffectedFile), v.Nodup →
      (bfsLoop g c src fuel q v a).2.1.Nodup := by
  intro fuel
  induction fuel with
  | zero => intro q v a h; simpa [bfsLoop] using h
  | succ n ih =>
    intro q v a h
    match q with
    | [] => simpa [bfsLoop] using h
    | cur :: rest =>
      rcases visitDependentEdges_state c src
          (g.edges.filter (fun e => e.target == cur && e.type == "IMPORTS")) v rest a with
        ⟨ns, h1, h2, h3, h4, _⟩
      have hnodup : (visitDependentEdges c src
          (g.edges.filter (fun e => e.target == cur && e.type == "IMPORTS"))
          (v, rest, a)).1.Nodup := by
        rw [h1]
        exact List.Nodup.append h h3 (fun x hx hx2 => h4 x hx2 hx)
      exact ih _ _ _ hnodup

lemma bfsLoop_drains (g : Graph) (c src : String) :
    ∀ (fuel : Nat) (q v : List String) (a : List AffectedFile),
      q.length + unvisitedEdges g.edges v ≤ fuel →
      (bfsLoop g c src fuel q v a).1 = [] := by
  intro fuel
  induction fuel with
  | zero =>
    intro q v a h
    have hq : q = [] := List.length_eq_zero.mp (by omega)
    subst hq
    simp [bfsLoop]
  | succ n ih =>
    intro q v a h
    match q with
    | [] => simp [bfsLoop]
    | cur :: rest =>
      rcases visitDependentEdges_state c src
          (g.edges.filter (fun e => e.target == cur && e.type == "IMPORTS")) v rest a with
        ⟨ns, h1, h2, h3, h4, h5⟩
      have hsrc : ∀ s ∈ ns, ∃ e ∈ g.edges, e.source = s := by
        intro s hs
        rcases h5 s hs with ⟨e, he, hes⟩
        exact ⟨e, List.mem_of_mem_filter he, hes⟩
      have hU := unvisited_append_le g.edges ns v h3 h4 hsrc
      apply ih
      rw [h2, h1]
      simp only [List.length_append, List.length_cons] at h ⊢
      omega

/-- C3: the reverse-dependency BFS completes within `|edges| + 1`
iterations of its while loop on every finite graph — the final queue is
empty, so the source loop terminates even on cyclic IMPORTS graphs —
and the visited set never holds a node id twice. -/
theorem bfs_terminates_and_visits_once (g : Graph) (changedNodeId sourceRepoId : String) :
    (bfsLoop g changedNodeId sourceRepoId (g.edges.length + 1)
        [changedNodeId] [changedNodeId] []).1 = []
  ∧ (bfsLoop g changedNodeId sourceRepoId (g.edges.length + 1)
        [changedNodeId] [changedNodeId] []).2.1.Nodup := by
  constructor
  · apply bfsLoop_drains
    have hb : unvisitedEdges g.edges [changedNodeId] ≤ g.edges.length :=
      List.length_filter_le _ _
    simp only [List.length_cons, List.length_nil]
    omega
  · exact bfsLoop_visited_nodup g changedNodeId sourceRepoId _ _ _ _
      (List.nodup_singleton _)

lemma visitDependentEdges_affected_mem (c src : String) :
    ∀ (deps : List GraphEdge) (v q : List String) (a : List AffectedFile)
      (x : AffectedFile), x ∈ (visitDependentEdges c src deps (v, q, a)).2.2 →
      x ∈ a ∨ (x.repoId ≠ src ∧ x.reason = "Imports " ++ basename c) := by
  intro deps
  induction deps with
  | nil =>
    intro v q a x hx
    simp only [visitDependentEdges] at hx
    exact Or.inl hx
  | cons e rest ih =>
    intro v q a x hx
    by_cases hv : e.source ∈ v
    · rw [show visitDependentEdges c src (e :: rest) (v, q, a) =
          visitDependentEdges c src rest (v, q, a) from by
            simp [visitDependentEdges, hv]] at hx
      exact ih v q a x hx
    · rw [show visitDependentEdges c src (e :: rest) (v, q, a) =
          visitDependentEdges c src rest (v ++ [e.source], q ++ [e.source],
            if (splitRepoPath e.source).1 ≠ src then
              a ++ [⟨(splitRepoPath e.source).1, (splitRepoPath e.source).2,
                "Imports " ++ basename c⟩]
            else a) from by simp [visitDependentEdges, hv]] at hx
      rcases ih _ _ _ x hx with hmem | hnew
      · by_cases hrp : (splitRepoPath e.source).1 ≠ src
        · rw [if_pos hrp] at hmem
          rcases List.mem_append.mp hmem with hmem | hmem
          · exact Or.inl hmem
          · rw [List.mem_singleton] at hmem
            subst hmem
            exact Or.inr ⟨hrp, rfl⟩
        · rw [if_neg hrp] at hmem
          exact Or.inl hmem
      · exact Or.inr hnew

lemma bfsLoop_affected_mem (g : Graph) (c src : String) :
    ∀ (fuel : Nat) (q v : List String) (a : List AffectedFile) (x : AffectedFile),
      x ∈ (bfsLoop g c src fuel q v a).2.2 →
      x ∈ a ∨ (x.repoId ≠ src ∧ x.reason = "Imports " ++ basename c) := by
  intro fuel
  induction fuel with
  | zero => intro q v a x hx; exact Or.inl hx
  | succ n ih =>
    intro q v a x hx
    match q with
    | [] => exact Or.inl hx
    | cur :: rest =>
      rcases ih _ _ _ x hx with hmem | hnew
      · exact visitDependentEdges_affected_mem c src _ v rest a x hmem
      · exact Or.inr hnew

lemma findAffectedFiles_mem (g : Graph) (c src : String) (x : AffectedFile)
    (hx : x ∈ findAffectedFiles g c src) :
    x.repoId ≠ src ∧ x.reason = "Imports " ++ basename c := by
  rcases bfsLoop_affected_mem g c src (g.edges.length + 1) [c] [c] [] x hx with hmem | h
  · cases hmem
  · exact h

lemma splitChar_head_prefix (c : Char) :
    ∀ l : List Char, ∃ r rest, splitChar c l = r :: rest ∧ r <+: l := by
  intro l
  induction l with
  | nil => exact ⟨[], [], rfl, List.nil_prefix⟩
  | cons x xs ih =>
    rcases ih with ⟨r, rest, heq, hpre⟩
    by_cases hx : x = c
    · exact ⟨[], r :: rest, by simp [splitChar, hx, heq], List.nil_prefix⟩
    · refine ⟨x :: r, rest, by simp [splitChar, hx, heq], ?_⟩
      exact List.cons_prefix_cons.mpr ⟨rfl, hpre⟩

lemma startsWith_splitRepoPath_fst (id : String) :
    strStartsWith id (splitRepoPath id).1 = true := by
  unfold splitRepoPath
  rcases splitChar_head_prefix ':' id.toList with ⟨r, rest, heq, hpre⟩
  rw [heq]
  simp only [strStartsWith]
  exact List.isPrefixOf_iff_prefix.mpr hpre

lemma scanFileStep_mem (env : AnalysisEnv) (fl : List String)
    (acc : List AffectedFile) (file : GraphNode) (x : AffectedFile)
    (hx : x ∈ scanFileStep env fl acc file) :
    x ∈ acc ∨ x.repoId = (splitRepoPath file.id).1 := by
  simp only [scanFileStep] at hx
  split at hx
  · exact Or.inl hx
  · exact Or.inl hx
  · split at hx
    · rcases List.mem_append.mp hx with hmem | hmem
      · exact Or.inl hmem
      · rw [List.mem_singleton] at hmem
        subst hmem
        exact Or.inr rfl
    · exact Or.inl hx

lemma foldl_scanFileStep_mem (env : AnalysisEnv) (fl : List String) :
    ∀ (files : List GraphNode) (acc : List AffectedFile) (x : AffectedFile),
      x ∈ files.foldl (scanFileStep env fl) acc →
      x ∈ acc ∨ ∃ file ∈ files, x.repoId = (splitRepoPath file.id).1 := by
  intro files
  induction files with
  | nil => intro acc x hx; exact Or.inl hx
  | cons f t ih =>
    intro acc x hx
    rcases ih (scanFileStep env fl acc f) x hx with hmem | ⟨file, hf, hrep⟩
    · rcases scanFileStep_mem env fl acc f x hmem with hmem | hrep
      · exact Or.inl hmem
      · exact Or.inr ⟨f, List.mem_cons_self _ _, hrep⟩
    · exact Or.inr ⟨file, List.mem_cons_of_mem _ hf, hrep⟩

lemma searchForAffectedFiles_mem (env : AnalysisEnv) (g : Graph) (src : String)
    (fns : List String) (x : AffectedFile)
    (hx : x ∈ searchForAffectedFiles env g src fns) : x.repoId ≠ src := by
  simp only [searchForAffectedFiles] at hx
  split at hx
  · cases hx
  · rcases foldl_scanFileStep_mem _ _ _ _ _ hx with hmem | ⟨file, hf, hrep⟩
    · cases hmem
    · have hfile := List.mem_of_mem_take hf
      have hpred := (List.mem_filter.mp hfile).2
      intro hc
      have hstart : strStartsWith file.id src = true := by
        rw [← hc, hrep]
        exact startsWith_splitRepoPath_fst file.id
      simp [hstart] at hpred

lemma aiStep_semantic_mem (env : AnalysisEnv) (g : Graph) (rid : String)
    (oldC newC : Option String) (x : AffectedFile)
    (hx : x ∈ (aiStep env g rid oldC newC).2.2) : x.repoId ≠ rid := by
  unfold aiStep at hx
  split at hx
  case isFalse => cases hx
  case isTrue =>
    split at hx
    · cases hx
    · split at hx
      · cases hx
      · split at hx
        · cases hx
        · simp only at hx
          split at hx
          · exact searchForAffectedFiles_mem env g rid _ x hx
          · cases hx

lemma mapInsert_values_mem (m : List (String × AffectedFile)) (k : String)
    (v : AffectedFile) :
    ∀ p ∈ mapInsert m k v, p.2 = v ∨ p ∈ m := by
  induction m with
  | nil =>
    intro p hp
    rw [show mapInsert [] k v = [(k, v)] from rfl, List.mem_singleton] at hp
    subst hp
    exact Or.inl rfl
  | cons q rest ih =>
    intro p hp
    simp only [mapInsert] at hp
    by_cases h1 : q.1 = k
    · rw [if_pos h1] at hp
      rcases List.mem_cons.mp hp with rfl | hp
      · exact Or.inl rfl
      · exact Or.inr (List.mem_cons_of_mem _ hp)
    · rw [if_neg h1] at hp
      rcases List.mem_cons.mp hp with rfl | hp
      · exact Or.inr (List.mem_cons_self _ _)
      · rcases ih p hp with h | h
        · exact Or.inl h
        · exact Or.inr (List.mem_cons_of_mem _ h)

lemma foldl_mapInsert_values_mem (l : List AffectedFile) :
    ∀ (m : List (String × AffectedFile)) (p : String × AffectedFile),
      p ∈ l.foldl (fun m f => mapInsert m (afKey f) f) m →
      p ∈ m ∨ p.2 ∈ l := by
  induction l with
  | nil => intro m p hp; exact Or.inl hp
  | cons f t ih =>
    intro m p hp
    rcases ih (mapInsert m (afKey f) f) p hp with hmem | hmem
    · rcases mapInsert_values_mem m (afKey f) f p hmem with h | h
      · exact Or.inr (by rw [h]; exact List.mem_cons_self _ _)
      · exact Or.inl h
    · exact Or.inr (List.mem_cons_of_mem _ hmem)

lemma dedupByKey_subset (l : List AffectedFile) (x : AffectedFile)
    (hx : x ∈ dedupByKey l) : x ∈ l := by
  unfold dedupByKey at hx
  rcases List.mem_map.mp hx with ⟨p, hp, rfl⟩
  rcases foldl_mapInsert_values_mem l [] p hp with hmem | hmem
  · cases hmem
  · exact hmem

lemma analyzeFileChange_cases (env : AnalysisEnv) (g : Graph) (pid rid fp : String)
    (oldC newC : Option String) :
    (analyzeFileChange env g pid rid fp oldC newC).isBreaking = true
  ∨ ((analyzeFileChange env g pid rid fp oldC newC).affectedFiles = []
      ∧ (analyzeFileChange env g pid rid fp oldC newC).severity = Severity.LOW
      ∧ (analyzeFileChange env g pid rid fp oldC newC).isBreaking = false) := by
  simp only [analyzeFileChange]
  split
  · right
    exact ⟨rfl, rfl, rfl⟩
  · split
    · rename_i h
      right
      refine ⟨rfl, rfl, ?_⟩
      simpa using h
    · rename_i h
      left
      simpa using h

lemma analyze_isBreaking_imp (env : AnalysisEnv) (g : Graph) (pid rid fp : String)
    (oldC newC : Option String)
    (h : (analyzeFileChange env g pid rid fp oldC newC).isBreaking = true) :
    (aiStep env g rid oldC newC).1 = true := by
  simp only [analyzeFileChange] at h
  split at h
  · simp [createEmptyResult] at h
  · split at h
    · rename_i hc
      have h' : (aiStep env g rid oldC newC).1 = true := h
      have hc' : (aiStep env g rid oldC newC).1 = false := by simpa using hc
      rw [h'] at hc'
      cases hc'
    · exact h

lemma aiStep_of_not_truthy (env : AnalysisEnv) (g : Graph) (rid : String)
    (oldC newC : Option String)
    (h : strTruthy oldC = false ∨ strTruthy newC = false) :
    aiStep env g rid oldC newC = (false, "File modified", []) := by
  unfold aiStep
  rcases h with h | h <;> rw [if_neg (by simp [h])]

lemma aiStep_of_ai_failure (env : AnalysisEnv) (g : Graph) (rid : String)
    (oldC newC : Option String)
    (h : (∃ e, env.generateContent (buildPrompt (oldC.getD "") (newC.getD ""))
          = Except.error e)
      ∨ (∃ r, env.generateContent (buildPrompt (oldC.getD "") (newC.getD ""))
            = Except.ok r ∧ extractJson r = none)) :
    aiStep env g rid oldC newC = (false, "File modified", []) := by
  unfold aiStep
  by_cases hc : (strTruthy oldC && strTruthy newC) = true
  · rw [if_pos hc]
    rcases h with ⟨e, he⟩ | ⟨r, hr, hj⟩
    · rw [he]
    · rw [hr]
      simp [hj]
  · rw [if_neg hc]

lemma foldl_eq_init {α β} (step : β → α → β) :
    ∀ (l : List α) (b : β), (∀ acc x, step acc x = acc) → l.foldl step b = b := by
  intro l
  induction l with
  | nil => intro b _; rfl
  | cons a t ih =>
    intro b h
    rw [List.foldl_cons, h]
    exact ih b h

lemma searchForAffectedFiles_all_readError (env : AnalysisEnv) (g : Graph)
    (src : String) (fns : List String)
    (h : ∀ r p, env.readFile r p = FileAccess.readError) :
    searchForAffectedFiles env g src fns = [] := by
  simp only [searchForAffectedFiles]
  split
  · rfl
  · refine foldl_eq_init _ _ _ ?_
    intro acc file
    simp only [scanFileStep, h]

/-- C1: a result classified non-breaking always carries an empty
affected-file list and severity LOW, no matter how many files the
structural BFS or the semantic scan discovered. -/
theorem nonbreaking_forces_empty_low (env : AnalysisEnv) (g : Graph)
    (pid rid fp : String) (oldC newC : Option String)
    (h : (analyzeFileChange env g pid rid fp oldC newC).isBreaking = false) :
    (analyzeFileChange env g pid rid fp oldC newC).affectedFiles = []
  ∧ (analyzeFileChange env g pid rid fp oldC newC).severity = Severity.LOW := by
  rcases analyzeFileChange_cases env g pid rid fp oldC newC with hb | ⟨h1, h2, _⟩
  · rw [hb] at h
    cases h
  · exact ⟨h1, h2⟩

/-- Witness for `nonbreaking_forces_empty_low`: the classifier reply
holds no JSON, the change stays non-breaking, and the structural
dependent `r2:c.ts` found by the BFS is suppressed from the result. -/
theorem nonbreaking_forces_empty_low_run :
    (analyzeFileChange envQuiet gScenario "p" "r1" "src/a.ts"
        (some "old code") (some "new code")).affectedFiles = []
  ∧ (analyzeFileChange envQuiet gScenario "p" "r1" "src/a.ts"
        (some "old code") (some "new code")).severity = Severity.LOW :=
  nonbreaking_forces_empty_low envQuiet gScenario "p" "r1" "src/a.ts"
    (some "old code") (some "new code") (by decide)

/-- C10: when either content is absent or empty the classifier step is
skipped, `isBreaking` keeps its `false` default, and the result always
has an empty affected-file list and severity LOW. -/
theorem missing_content_forces_empty_low (env : AnalysisEnv) (g : Graph)
    (pid rid fp : String) (oldC newC : Option String)
    (h : strTruthy oldC = false ∨ strTruthy newC = false) :
    (analyzeFileChange env g pid rid fp oldC newC).affectedFiles = []
  ∧ (analyzeFileChange env g pid rid fp oldC newC).severity = Severity.LOW
  ∧ (analyzeFileChange env g pid rid fp oldC newC).isBreaking = false := by
  have hst : (aiStep env g rid oldC newC).1 = false := by
    rw [aiStep_of_not_truthy env g rid oldC newC h]
  rcases analyzeFileChange_cases env g pid rid fp oldC newC with hb | ⟨h1, h2, h3⟩
  · have hb' := analyze_isBreaking_imp env g pid rid fp oldC newC hb
    rw [hb'] at hst
    cases hst
  · exact ⟨h1, h2, h3⟩

/-- Witness for `missing_content_forces_empty_low`: the old content is
the empty string, so the breaking-happy classifier is never consulted. -/
theorem missing_content_forces_empty_low_run :
    (analyzeFileChange envBreaking gScenario "p" "r1" "src/a.ts"
        (some "") (some "new code")).affectedFiles = []
  ∧ (analyzeFileChange envBreaking gScenario "p" "r1" "src/a.ts"
        (some "") (some "new code")).severity = Severity.LOW
  ∧ (analyzeFileChange envBreaking gScenario "p" "r1" "src/a.ts"
        (some "") (some "new code")).isBreaking = false :=
  missing_content_forces_empty_low envBreaking gScenario "p" "r1" "src/a.ts"
    (some "") (some "new code") (Or.inl rfl)

/-- C4: every reported affected file belongs to a repository different
from the changed file's repository, whether it came from the structural
BFS or from the semantic scan, and deduplication preserves this. -/
theorem affected_entries_cross_repo (env : AnalysisEnv) (g : Graph)
    (pid rid fp : String) (oldC newC : Option String) (x : AffectedFile)
    (hx : x ∈ (analyzeFileChange env g pid rid fp oldC newC).affectedFiles) :
    x.repoId ≠ rid := by
  simp only [analyzeFileChange] at hx
  split at hx
  · simp [createEmptyResult] at hx
  · split at hx
    · cases hx
    · rename_i c hfind hcond
      have hx' := dedupByKey_subset _ x hx
      rcases List.mem_append.mp hx' with hmem | hmem
      · exact (findAffectedFiles_mem g c rid x hmem).1
      · exact aiStep_semantic_mem env g rid oldC newC x hmem

/-- Witness for `affected_entries_cross_repo` on the two-repository
scenario with a breaking classification. -/
theorem affected_entries_cross_repo_run :
    (⟨"r2", "c.ts", "Imports a.ts"⟩ : AffectedFile).repoId ≠ "r1" :=
  affected_entries_cross_repo envBreaking gScenario "p" "r1" "src/a.ts"
    (some "old code") (some "new code") ⟨"r2", "c.ts", "Imports a.ts"⟩ (by decide)

lemma scanFileStep_read_congr (env env₂ : AnalysisEnv) (fl : List String) (file : GraphNode)
    (h : (env.readFile (splitRepoPath file.id).1 (splitRepoPath file.id).2
            = FileAccess.readError
          ∧ env₂.readFile (splitRepoPath file.id).1 (splitRepoPath file.id).2
            = FileAccess.absent)
       ∨ env.readFile (splitRepoPath file.id).1 (splitRepoPath file.id).2
           = env₂.readFile (splitRepoPath file.id).1 (splitRepoPath file.id).2)
    (acc : List AffectedFile) :
    scanFileStep env fl acc file = scanFileStep env₂ fl acc file := by
  simp only [scanFileStep]
  rcases h with ⟨h1, h2⟩ | h1
  · rw [h1, h2]
  · rw [h1]

lemma foldl_scanFileStep_read_congr (env env₂ : AnalysisEnv) (fl : List String)
    (h : ∀ r p, (env.readFile r p = FileAccess.readError
          ∧ env₂.readFile r p = FileAccess.absent)
        ∨ env.readFile r p = env₂.readFile r p) :
    ∀ (files : List GraphNode) (acc : List AffectedFile),
      files.foldl (scanFileStep env fl) acc = files.foldl (scanFileStep env₂ fl) acc := by
  intro files
  induction files with
  | nil => intro acc; rfl
  | cons f t ih =>
    intro acc
    rw [List.foldl_cons, List.foldl_cons,
      scanFileStep_read_congr env env₂ fl f (h _ _) acc, ih]

lemma searchForAffectedFiles_readError_skipped (env env₂ : AnalysisEnv) (g : Graph)
    (h : ∀ r p, (env.readFile r p = FileAccess.readError
          ∧ env₂.readFile r p = FileAccess.absent)
        ∨ env.readFile r p = env₂.readFile r p) :
    ∀ (src : String) (fns : List String),
      searchForAffectedFiles env g src fns = searchForAffectedFiles env₂ g src fns := by
  intro src fns
  simp only [searchForAffectedFiles]
  split
  · rfl
  · exact foldl_scanFileStep_read_congr env env₂ _ h _ _

lemma aiStep_read_congr (env env₂ : AnalysisEnv) (g : Graph) (rid : String)
    (oldC newC : Option String)
    (hread : ∀ r p, (env.readFile r p = FileAccess.readError
          ∧ env₂.readFile r p = FileAccess.absent)
        ∨ env.readFile r p = env₂.readFile r p)
    (hgen : env₂.generateContent = env.generateContent)
    (hparse : env₂.parseJson = env.parseJson) :
    aiStep env g rid oldC newC = aiStep env₂ g rid oldC newC := by
  unfold aiStep
  rw [hgen, hparse]
  simp only [searchForAffectedFiles_readError_skipped env env₂ g hread]

lemma analyzeFileChange_read_congr (env env₂ : AnalysisEnv) (g : Graph)
    (pid rid fp : String) (oldC newC : Option String)
    (hread : ∀ r p, (env.readFile r p = FileAccess.readError
          ∧ env₂.readFile r p = FileAccess.absent)
        ∨ env.readFile r p = env₂.readFile r p)
    (hgen : env₂.generateContent = env.generateContent)
    (hparse : env₂.parseJson = env.parseJson)
    (hnow : env₂.now = env.now) :
    analyzeFileChange env g pid rid fp oldC newC
      = analyzeFileChange env₂ g pid rid fp oldC newC := by
  simp only [analyzeFileChange, createEmptyResult,
    aiStep_read_congr env env₂ g rid oldC newC hread hgen hparse, hnow]

/-- C7: classifier-collaborator errors and replies without an
extractable JSON object degrade the analysis to a complete non-breaking
result instead of failing; and a per-file read error during the
semantic scan is caught and skips only that file: an environment in
which some reads throw is indistinguishable, both for the scan and for
the whole analysis, from one in which exactly those files are absent,
so every readable file is still scanned and still contributes. -/
theorem collaborator_failures_degrade (env env₂ : AnalysisEnv) (g : Graph)
    (pid rid fp : String) (oldC newC : Option String) (fns : List String) :
    (((∃ e, env.generateContent (buildPrompt (oldC.getD "") (newC.getD ""))
          = Except.error e)
      ∨ (∃ r, env.generateContent (buildPrompt (oldC.getD "") (newC.getD ""))
            = Except.ok r ∧ extractJson r = none)) →
      ((analyzeFileChange env g pid rid fp oldC newC).affectedFiles = []
        ∧ (analyzeFileChange env g pid rid fp oldC newC).severity = Severity.LOW
        ∧ (analyzeFileChange env g pid rid fp oldC newC).isBreaking = false))
  ∧ ((∀ r p, (env.readFile r p = FileAccess.readError
          ∧ env₂.readFile r p = FileAccess.absent)
        ∨ env.readFile r p = env₂.readFile r p) →
      searchForAffectedFiles env g rid fns = searchForAffectedFiles env₂ g rid fns)
  ∧ ((∀ r p, (env.readFile r p = FileAccess.readError
          ∧ env₂.readFile r p = FileAccess.absent)
        ∨ env.readFile r p = env₂.readFile r p) →
      env₂.generateContent = env.generateContent →
      env₂.parseJson = env.parseJson →
      env₂.now = env.now →
      analyzeFileChange env g pid rid fp oldC newC
        = analyzeFileChange env₂ g pid rid fp oldC newC) := by
  refine ⟨?_, ?_, ?_⟩
  · intro h
    have hst : (aiStep env g rid oldC newC).1 = false := by
      rw [aiStep_of_ai_failure env g rid oldC newC h]
    rcases analyzeFileChange_cases env g pid rid fp oldC newC with hb | ⟨h1, h2, h3⟩
    · have hb' := analyze_isBreaking_imp env g pid rid fp oldC newC hb
      rw [hb'] at hst
      cases hst
    · exact ⟨h1, h2, h3⟩
  · intro hread
    exact searchForAffectedFiles_readError_skipped env env₂ g hread rid fns
  · intro hread hgen hparse hnow
    exact analyzeFileChange_read_congr env env₂ g pid rid fp oldC newC hread hgen hparse hnow

lemma envMixed_envAbsent_read : ∀ r p,
    (envMixed.readFile r p = FileAccess.readError
      ∧ envAbsent.readFile r p = FileAccess.absent)
    ∨ envMixed.readFile r p = envAbsent.readFile r p := by
  intro r p
  by_cases h : r = "r2" ∧ p = "c.ts"
  · left
    exact ⟨by simp [envMixed, h], by simp [envAbsent, envMixed, h]⟩
  · right
    simp [envMixed, envAbsent, h]

/-- Witness for `collaborator_failures_degrade`: the classifier call
rejects and reading `r2/c.ts` throws while `r3/d.ts` is readable — the
analysis still returns a complete non-breaking result, the erroring
file behaves exactly like an absent one for the scan and for the whole
analysis, and the readable file is still reported by the scan. -/
theorem collaborator_failures_degrade_run :
    ((analyzeFileChange envMixed gScan "p" "r1" "src/a.ts"
        (some "x") (some "y")).affectedFiles = []
      ∧ (analyzeFileChange envMixed gScan "p" "r1" "src/a.ts"
        (some "x") (some "y")).severity = Severity.LOW
      ∧ (analyzeFileChange envMixed gScan "p" "r1" "src/a.ts"
        (some "x") (some "y")).isBreaking = false)
  ∧ searchForAffectedFiles envMixed gScan "r1" ["renamedFn"]
      = searchForAffectedFiles envAbsent gScan "r1" ["renamedFn"]
  ∧ analyzeFileChange envMixed gScan "p" "r1" "src/a.ts" (some "x") (some "y")
      = analyzeFileChange envAbsent gScan "p" "r1" "src/a.ts" (some "x") (some "y")
  ∧ searchForAffectedFiles envMixed gScan "r1" ["renamedFn"]
      = [⟨"r3", "d.ts", "Uses modified functions: renamedFn (line 1)"⟩] :=
  ⟨(collaborator_failures_degrade envMixed envAbsent gScan "p" "r1" "src/a.ts"
      (some "x") (some "y") ["renamedFn"]).1 (Or.inl ⟨"boom", rfl⟩),
   (collaborator_failures_degrade envMixed envAbsent gScan "p" "r1" "src/a.ts"
      (some "x") (some "y") ["renamedFn"]).2.1 envMixed_envAbsent_read,
   (collaborator_failures_degrade envMixed envAbsent gScan "p" "r1" "src/a.ts"
      (some "x") (some "y") ["renamedFn"]).2.2 envMixed_envAbsent_read rfl rfl rfl,
   by decide⟩

/-- C9 counterexample: in the two-repository scenario the structural
entry's reason is the capitalised "Imports a.ts"; the claimed
"imports a.ts" does not occur in it. -/
theorem structural_reason_capitalised_cex :
    findAffectedFiles gScenario "r1:src/a.ts" "r1" = [⟨"r2", "c.ts", "Imports a.ts"⟩]
  ∧ strIncludes "Imports a.ts" "imports a.ts" = false := by decide

/-- C9 amended: every structural entry's reason is
`"Imports " ++ basename <matched node id>` (capital I; this equals the
changed file's base name whenever its path contains a directory
separator), and in the scenario a breaking change to `r1/src/a.ts`
reports `r2/c.ts` with reason "Imports a.ts". -/
theorem structural_reason_imports_basename :
    (∀ (g : Graph) (c src : String) (x : AffectedFile),
      x ∈ findAffectedFiles g c src → x.reason = "Imports " ++ basename c)
  ∧ (analyzeFileChange envBreaking gScenario "p" "r1" "src/a.ts"
      (some "export function a()") (some "export function renamedA()")).affectedFiles
      = [⟨"r2", "c.ts", "Imports a.ts"⟩] := by
  constructor
  · intro g c src x hx
    exact (findAffectedFiles_mem g c src x hx).2
  · decide

/-- Witness for `structural_reason_imports_basename` at the scenario
graph. -/
theorem structural_reason_imports_basename_run :
    (⟨"r2", "c.ts", "Imports a.ts"⟩ : AffectedFile).reason =
      "Imports " ++ basename "r1:src/a.ts" :=
  structural_reason_imports_basename.1 gScenario "r1:src/a.ts" "r1"
    ⟨"r2", "c.ts", "Imports a.ts"⟩ (by decide)

end Syncrup
